import Mathlib

/-!
Shallow embedding of the OpenRAM SRAM characterization engine
(`compiler/characterizer/delay.py`).  Real-valued quantities of the Python
code are modelled as rationals; the external SPICE simulator and the
result parser (`parse_spice_list`, an external collaborator returning a
number or a failure sentinel) are modelled as oracle functions supplied as
parameters.  A `debug.error` / failed `debug.check` (fatal abort) is
modelled as `none`.
-/

namespace Sram

/-- Scale factor from the simulator's base time unit (seconds) to ns,
used as `* 1e9` in `run_delay_simulation`, `check_valid_delays` and
`try_period`. -/
def sec_to_ns : ℚ := 1000000000

/-- Scale factor from watts to milliwatts (`* 1e3`). -/
def w_to_mw : ℚ := 1000

/-- The raw parsed measurements of one delay simulation: the four timing
measurements may be the failure sentinel of `parse_spice_list`
(modelled as `none`); the four dynamic-power measurements are taken to
parse successfully (their failure is not consulted by the delay code). -/
structure SimRaw where
  delay_hl : Option ℚ
  delay_lh : Option ℚ
  slew_hl : Option ℚ
  slew_lh : Option ℚ
  read0_power : ℚ
  read1_power : ℚ
  write0_power : ℚ
  write1_power : ℚ
deriving DecidableEq

/-- The SPICE delay-simulation collaborator: period → load → slew → raw
parsed measurements (deterministic and idempotent per the spec's
collaborator contract). -/
abbrev Oracle : Type := ℚ → ℚ → ℚ → SimRaw

/-- The leakage-power simulation collaborator: trim flag → period →
parsed `leakage_power` (or the failure sentinel `none`). -/
abbrev PowerOracle : Type := Bool → ℚ → Option ℚ

/-- Modelled from the spec: `relative_compare` lives in
`characterizer/charutils.py`, which is not among the provided sources.
The spec defines it as: two values `a`, `b` are close within `tol` when
`|a − b| ≤ tol × max(|a|, |b|)`. -/
def relative_compare (v1 v2 tol : ℚ) : Bool :=
  |v1 - v2| ≤ tol * max |v1| |v2|

/-- `delay.check_arguments`: validates the probe address (binary string of
the right width — `int(s, 2)` also requires a nonempty string) and the
probe data-bit index.  Note the source rejects only `probe_data > word_size`
or `probe_data < 0`. -/
def check_arguments (addr_size word_size : Nat) (probe_address : List Char)
    (probe_data : Int) : Bool :=
  !probe_address.isEmpty
    && probe_address.all (fun c => c == '0' || c == '1')
    && (probe_address.length == addr_size)
    && !(probe_data > (word_size : Int) || probe_data < 0)

/-- The result dictionary of a successful `run_delay_simulation`:
delays/slews rescaled to ns, powers rescaled to mW. -/
structure DelayResult where
  delay_hl : ℚ
  delay_lh : ℚ
  slew_hl : ℚ
  slew_lh : ℚ
  read0_power : ℚ
  read1_power : ℚ
  write0_power : ℚ
  write1_power : ℚ
deriving DecidableEq

/-- `delay.check_valid_delays`: false if any of the four timing
measurements is the failure sentinel, or if any of them (rescaled to ns)
exceeds the clock period. -/
def check_valid_delays (period : ℚ) (r : SimRaw) : Bool :=
  match r.delay_hl, r.delay_lh, r.slew_hl, r.slew_lh with
  | some dhl, some dlh, some shl, some slh =>
    !(dhl * sec_to_ns > period || dlh * sec_to_ns > period
      || shl * sec_to_ns > period || slh * sec_to_ns > period)
  | _, _, _, _ => false

/-- `delay.run_delay_simulation`: writes the stimulus, runs the simulator
(the oracle), validates the four timing measurements against the period
and returns the rescaled results, or `none` (Python `(False, {})`). -/
def run_delay_simulation (o : Oracle) (period load slew : ℚ) :
    Option DelayResult :=
  let r := o period load slew
  match r.delay_hl, r.delay_lh, r.slew_hl, r.slew_lh with
  | some dhl, some dlh, some shl, some slh =>
    if dhl * sec_to_ns > period || dlh * sec_to_ns > period
        || shl * sec_to_ns > period || slh * sec_to_ns > period then none
    else some
      { delay_hl := dhl * sec_to_ns
        delay_lh := dlh * sec_to_ns
        slew_hl := shl * sec_to_ns
        slew_lh := slh * sec_to_ns
        read0_power := r.read0_power * w_to_mw
        read1_power := r.read1_power * w_to_mw
        write0_power := r.write0_power * w_to_mw
        write1_power := r.write1_power * w_to_mw }
  | _, _, _, _ => none

/-- `delay.try_period`: runs a delay simulation at the current (trial)
period and succeeds iff the four timing measurements parse, all four
(rescaled to ns) are at most the period, and both delays are within the
5% relative tolerance of the feasible reference delays (the slews are
not tolerance-checked). -/
def try_period (o : Oracle) (load slew fdlh fdhl period : ℚ) : Bool :=
  let r := o period load slew
  match r.delay_hl, r.delay_lh, r.slew_hl, r.slew_lh with
  | some dhl0, some dlh0, some shl0, some slh0 =>
    let dhl := dhl0 * sec_to_ns
    let dlh := dlh0 * sec_to_ns
    let shl := shl0 * sec_to_ns
    let slh := slh0 * sec_to_ns
    if dhl > period || dlh > period || shl > period || slh > period then
      false
    else if !relative_compare dlh fdlh (5/100) then false
    else if !relative_compare dhl fdhl (5/100) then false
    else true
  | _, _, _, _ => false

/-- The loop of `delay.find_feasible_period`, recursing on the `time_out`
counter (initially 8).  The counter is decremented and compared with 0
*before* each simulation; on an invalid simulation the period doubles. -/
def find_feasible_period_go (o : Oracle) (load slew : ℚ) :
    ℚ → Nat → Option (ℚ × ℚ × ℚ)
  | _, 0 => none
  | fp, t + 1 =>
    if t = 0 then none
    else
      match run_delay_simulation o fp load slew with
      | some r => some (fp, r.delay_lh, r.delay_hl)
      | none => find_feasible_period_go o load slew (2 * fp) t

/-- `delay.find_feasible_period`, started from the technology-supplied
nominal period `fp0` with `time_out = 8`.  On success it returns the
winning period (the final `self.period` state) together with
`(feasible_delay_lh, feasible_delay_hl)`. -/
def find_feasible_period (o : Oracle) (load slew fp0 : ℚ) :
    Option (ℚ × ℚ × ℚ) :=
  find_feasible_period_go o load slew fp0 8

/-- Number of simulations actually attempted by the
`find_feasible_period` loop (for the resource-bound claim). -/
def ffp_sim_count (o : Oracle) (load slew : ℚ) : ℚ → Nat → Nat
  | _, 0 => 0
  | fp, t + 1 =>
    if t = 0 then 0
    else
      match run_delay_simulation o fp load slew with
      | some _ => 1
      | none => 1 + ffp_sim_count o load slew (2 * fp) t

/-- The loop of `delay.find_min_period`, recursing on the `time_out`
counter (initially 25).  Each iteration sets the trial period to the
midpoint of the bounds, simulates via `try_period`, moves the matching
bound, and returns the upper bound once the bounds are within 5% relative
tolerance.  The second component of the result is the final trial period,
i.e. the `self.period` state left behind by the search. -/
def find_min_period_go (o : Oracle) (load slew fdlh fdhl : ℚ) :
    ℚ → ℚ → Nat → Option (ℚ × ℚ)
  | _, _, 0 => none
  | ub, lb, t + 1 =>
    if t = 0 then none
    else
      let target := (ub + lb) / 2
      let bounds :=
        if try_period o load slew fdlh fdhl target = true then (target, lb)
        else (ub, target)
      if relative_compare bounds.1 bounds.2 (5/100) = true then
        some (bounds.1, target)
      else find_min_period_go o load slew fdlh fdhl bounds.1 bounds.2 t

/-- `delay.find_min_period`: binary search over `[0, ub0]` where `ub0` is
the feasible period, with `time_out = 25`. -/
def find_min_period (o : Oracle) (load slew fdlh fdhl ub0 : ℚ) :
    Option (ℚ × ℚ) :=
  find_min_period_go o load slew fdlh fdhl ub0 0 25

/-- `delay.run_power_simulation`: leakage on the untrimmed netlist, then
on the trimmed netlist, both rescaled to mW; a failed parse is a failed
`debug.check` (fatal). -/
def run_power_simulation (po : PowerOracle) (period : ℚ) :
    Option (ℚ × ℚ) :=
  match po false period, po true period with
  | some leak, some trim_leak => some (leak * w_to_mw, trim_leak * w_to_mw)
  | _, _ => none

/-- The leakage substitution applied by `analyze` to each dynamic power
measurement: `v - trim_array_leakage + full_array_leakage`. -/
def power_correct (measured trim_leak full_leak : ℚ) : ℚ :=
  measured - trim_leak + full_leak

/-- The characterization table built by `analyze`: per-metric lists
aligned with the load/slew sweep, plus the scalar `min_period` and
`leakage_power` entries. -/
structure CharData where
  min_period : ℚ
  delay_hl : List ℚ
  delay_lh : List ℚ
  slew_hl : List ℚ
  slew_lh : List ℚ
  read0_power : List ℚ
  read1_power : List ℚ
  write0_power : List ℚ
  write1_power : List ℚ
  leakage_power : ℚ
deriving DecidableEq

/-- One sweep-point update of the table: delay/slew results are appended
verbatim, each `*_power` result is appended after leakage substitution. -/
def append_result (trim_leak full_leak : ℚ) (cd : CharData)
    (r : DelayResult) : CharData :=
  { cd with
    delay_hl := cd.delay_hl ++ [r.delay_hl]
    delay_lh := cd.delay_lh ++ [r.delay_lh]
    slew_hl := cd.slew_hl ++ [r.slew_hl]
    slew_lh := cd.slew_lh ++ [r.slew_lh]
    read0_power :=
      cd.read0_power ++ [power_correct r.read0_power trim_leak full_leak]
    read1_power :=
      cd.read1_power ++ [power_correct r.read1_power trim_leak full_leak]
    write0_power :=
      cd.write0_power ++ [power_correct r.write0_power trim_leak full_leak]
    write1_power :=
      cd.write1_power ++ [power_correct r.write1_power trim_leak full_leak] }

/-- The inner (load) loop of `analyze` step 4; a failed simulation fails
the `debug.check` and aborts. -/
def sweep_loads (o : Oracle) (p trim_leak full_leak slew : ℚ) :
    List ℚ → CharData → Option CharData
  | [], cd => some cd
  | load :: rest, cd =>
    match run_delay_simulation o p load slew with
    | none => none
    | some r =>
      sweep_loads o p trim_leak full_leak slew rest
        (append_result trim_leak full_leak cd r)

/-- The outer (slew) loop of `analyze` step 4. -/
def sweep_slews (o : Oracle) (p trim_leak full_leak : ℚ) (loads : List ℚ) :
    List ℚ → CharData → Option CharData
  | [], cd => some cd
  | slew :: rest, cd =>
    match sweep_loads o p trim_leak full_leak slew loads cd with
    | none => none
    | some cd2 => sweep_slews o p trim_leak full_leak loads rest cd2

/-- Python's `max` over a list (error on empty). -/
def pymax : List ℚ → Option ℚ
  | [] => none
  | x :: xs => some (xs.foldl max x)

/-- The table before the sweep: `min_period` set (the `round_time` of
`charutils.py` is not among the provided sources and the spec specifies
no rounding, so it is modelled as the identity), empty per-metric lists,
and `leakage_power` overwritten with the full-array leakage. -/
def init_char_data (minp leak : ℚ) : CharData :=
  ⟨minp, [], [], [], [], [], [], [], [], leak⟩

/-- `delay.analyze`: the characterize entry point.  The Python object
state `self.period` is threaded explicitly; the second component of the
result is the period state left behind after `find_min_period`, which is
the period every sweep simulation (and the power simulation) runs at.
Fatal `debug.error`/`debug.check` aborts are `none`. -/
def analyze (o : Oracle) (po : PowerOracle) (fp0 : ℚ)
    (slews loads : List ℚ) : Option (CharData × ℚ) :=
  match pymax loads, pymax slews with
  | some max_load, some max_slew =>
    (match find_feasible_period o max_load max_slew fp0 with
     | none => none
     | some (fper, fdlh, fdhl) =>
       if fdlh ≤ 0 || fdhl ≤ 0 then none
       else
         match find_min_period o max_load max_slew fdlh fdhl fper with
         | none => none
         | some (minp, p_final) =>
           match run_power_simulation po p_final with
           | none => none
           | some (full_leak, trim_leak) =>
             match sweep_slews o p_final trim_leak full_leak loads slews
                 (init_char_data minp full_leak) with
             | none => none
             | some cd => some (cd, p_final))
  | _, _ => none

/-- The cycle-sequencer accumulator state built by `create_test_cycles`:
timestamps of each rising clock edge, per-cycle control values (the
source appends the integers 0/1), and one value stream per data bit and
per address bit.  Bits are modelled as `Bool` (the source's
binary-string decomposition with its fatal non-binary-character check;
all strings reaching `add_data`/`add_address` here are well-formed by
construction). -/
structure SeqState where
  t_current : ℚ
  cycle_times : List ℚ
  web_values : List Nat
  oeb_values : List Nat
  csb_values : List Nat
  data_values : List (List Bool)
  addr_values : List (List Bool)
deriving DecidableEq

/-- `delay.add_data` / `delay.add_address`: append one bit of the given
word to each per-bit stream. -/
def add_bits (streams : List (List Bool)) (bits : List Bool) :
    List (List Bool) :=
  List.zipWith (fun s b => s ++ [b]) streams bits

/-- Common body of `add_noop` / `add_read` / `add_write`: record the
cycle time, advance `t_current` by one period, append the control values
and decompose address/data into the per-bit streams. -/
def add_cycle (period : ℚ) (csb web oeb : Nat) (address data : List Bool)
    (st : SeqState) : SeqState :=
  { t_current := st.t_current + period
    cycle_times := st.cycle_times ++ [st.t_current]
    web_values := st.web_values ++ [web]
    oeb_values := st.oeb_values ++ [oeb]
    csb_values := st.csb_values ++ [csb]
    data_values := add_bits st.data_values data
    addr_values := add_bits st.addr_values address }

/-- `delay.add_noop`: csb=1, web=1, oeb=1 (all inactive). -/
def add_noop (period : ℚ) (address data : List Bool) (st : SeqState) :
    SeqState :=
  add_cycle period 1 1 1 address data st

/-- `delay.add_read`: csb=0, web=1, oeb=0. -/
def add_read (period : ℚ) (address data : List Bool) (st : SeqState) :
    SeqState :=
  add_cycle period 0 1 0 address data st

/-- `delay.add_write`: csb=0, web=0, oeb=1. -/
def add_write (period : ℚ) (address data : List Bool) (st : SeqState) :
    SeqState :=
  add_cycle period 0 0 1 address data st

/-- The output of `create_test_cycles`: the accumulator state plus the
recorded measurement-cycle indices. -/
structure TestCycles where
  st : SeqState
  write0_cycle : Nat
  read0_cycle : Nat
  idle_cycle : Nat
  write1_cycle : Nat
  read1_cycle : Nat
deriving DecidableEq

/-- `delay.create_test_cycles`: the fixed test program (noop, two writes,
two reads, noop, two writes, two reads, trailing noop) with the
write0/read0/idle/write1/read1 indices recorded as
`len(self.cycle_times) - 1` right after the corresponding cycle is
added. -/
def create_test_cycles (word_size addr_size : Nat)
    (probe_address : List Bool) (period : ℚ) : TestCycles :=
  let inverse_address := probe_address.map (fun b => !b)
  let data_ones : List Bool := List.replicate word_size true
  let data_zeros : List Bool := List.replicate word_size false
  let st0 : SeqState :=
    ⟨0, [], [], [], [], List.replicate word_size [],
      List.replicate addr_size []⟩
  let st1 := add_noop period inverse_address data_zeros st0
  let st2 := add_write period inverse_address data_ones st1
  let st3 := add_write period probe_address data_zeros st2
  let write0_cycle := st3.cycle_times.length - 1
  let st4 := add_read period inverse_address data_zeros st3
  let st5 := add_read period probe_address data_zeros st4
  let read0_cycle := st5.cycle_times.length - 1
  let st6 := add_noop period inverse_address data_zeros st5
  let idle_cycle := st6.cycle_times.length - 1
  let st7 := add_write period probe_address data_ones st6
  let write1_cycle := st7.cycle_times.length - 1
  let st8 := add_write period inverse_address data_zeros st7
  let st9 := add_read period inverse_address data_zeros st8
  let st10 := add_read period probe_address data_zeros st9
  let read1_cycle := st10.cycle_times.length - 1
  let st11 := add_noop period probe_address data_zeros st10
  ⟨st11, write0_cycle, read0_cycle, idle_cycle, write1_cycle, read1_cycle⟩

/-- Operation kinds, as determined by the chip-select / write-enable /
output-enable control values appended for a cycle. -/
inductive OpKind where
  | readOp
  | writeOp
  | idleOp
deriving DecidableEq

/-- Reads the operation kind of cycle `i` off the control-value lists. -/
def kind_at (st : SeqState) (i : Nat) : Option OpKind :=
  match st.csb_values.get? i, st.web_values.get? i, st.oeb_values.get? i with
  | some 0, some 0, some 1 => some OpKind.writeOp
  | some 0, some 1, some 0 => some OpKind.readOp
  | some 1, some 1, some 1 => some OpKind.idleOp
  | _, _, _ => none

/-- The four dynamic-power measurement windows emitted by
`write_delay_measures`, in source order (write0, write1, read0, read1):
each spans `cycle_times[c]` to `cycle_times[c + 1]`. -/
def delay_power_windows (tc : TestCycles) : List (ℚ × ℚ) :=
  [ (tc.st.cycle_times.getD tc.write0_cycle 0,
     tc.st.cycle_times.getD (tc.write0_cycle + 1) 0),
    (tc.st.cycle_times.getD tc.write1_cycle 0,
     tc.st.cycle_times.getD (tc.write1_cycle + 1) 0),
    (tc.st.cycle_times.getD tc.read0_cycle 0,
     tc.st.cycle_times.getD (tc.read0_cycle + 1) 0),
    (tc.st.cycle_times.getD tc.read1_cycle 0,
     tc.st.cycle_times.getD (tc.read1_cycle + 1) 0) ]

/-- The content of the power-only (leakage) stimulus file written by
`write_power_stimulus` / `write_power_measures`: constant levels for
every signal, one leakage measurement window, and the final
simulation-duration control statement. -/
structure PowerStim where
  din : List ℚ
  addr : List ℚ
  csb : ℚ
  web : ℚ
  oeb : ℚ
  clk : ℚ
  meas_t_initial : ℚ
  meas_t_final : ℚ
  sim_end : ℚ
deriving DecidableEq

/-- `delay.write_power_stimulus` + `delay.write_power_measures`: every
DIN and A bit is a constant 0 source, CSb/WEb/OEb are constant at the
supply voltage, CLK is constant 0, the single `leakage_power` window is
`[period, 2 * period]` and the transient runs until `2 * period`. -/
def write_power_stimulus (word_size addr_size : Nat) (vdd period : ℚ) :
    PowerStim :=
  { din := List.replicate word_size 0
    addr := List.replicate addr_size 0
    csb := vdd
    web := vdd
    oeb := vdd
    clk := 0
    meas_t_initial := period
    meas_t_final := 2 * period
    sim_end := 2 * period }

/-- The analytical delay model of the SRAM (`sram.analytical_delay`),
returning delay and slew in ps. -/
structure BankDelay where
  delay : ℚ
  slew : ℚ
deriving DecidableEq

/-- The analytical power model of the SRAM (`sram.analytical_power` at
the fixed corner), returning dynamic and leakage power in nW. -/
structure PowerModel where
  dynamic : ℚ
  leakage : ℚ
deriving DecidableEq

/-- The dictionary returned by `analytical_delay`: per-sweep-point lists
for delays/slews but scalar powers. -/
structure AnalyticalData where
  min_period : ℚ
  delay_lh : List ℚ
  delay_hl : List ℚ
  slew_lh : List ℚ
  slew_hl : List ℚ
  read0_power : ℚ
  read1_power : ℚ
  write0_power : ℚ
  write1_power : ℚ
  leakage_power : ℚ
deriving DecidableEq

/-- The sweep order of the nested loops: slew outer, load inner. -/
def sweep_pairs (slews loads : List ℚ) : List (ℚ × ℚ) :=
  slews.flatMap (fun s => loads.map (fun l => (s, l)))

/-- `delay.analytical_delay`: appends `bank_delay.delay / 1e3` to both
delay lists and `bank_delay.slew / 1e3` to both slew lists for every
(slew, load) pair, then evaluates the power model once, at the loop
variable `load` left over from the sweep — the last element of `loads`.
With an empty `slews` or `loads` the trailing `load` name is unbound
(a fatal `NameError`), modelled as `none`. -/
def analytical_delay (adelay : ℚ → ℚ → BankDelay)
    (apower : ℚ → PowerModel) (slews loads : List ℚ) :
    Option AnalyticalData :=
  match slews.getLast?, loads.getLast? with
  | some _, some last_load =>
    let pairs := sweep_pairs slews loads
    let power := apower last_load
    some
      { min_period := 0
        delay_lh := pairs.map (fun q => (adelay q.1 q.2).delay / 1000)
        delay_hl := pairs.map (fun q => (adelay q.1 q.2).delay / 1000)
        slew_lh := pairs.map (fun q => (adelay q.1 q.2).slew / 1000)
        slew_hl := pairs.map (fun q => (adelay q.1 q.2).slew / 1000)
        read0_power := power.dynamic / 1000000
        read1_power := power.dynamic / 1000000
        write0_power := power.dynamic / 1000000
        write1_power := power.dynamic / 1000000
        leakage_power := power.leakage / 1000000 }
  | _, _ => none

/-- Collects a list of optional simulation results, failing if any
failed (the shape of `analyze`'s sweep, whose `debug.check` aborts on
the first failed simulation). -/
def opt_list {α : Type} : List (Option α) → Option (List α)
  | [] => some []
  | none :: _ => none
  | some r :: rest => (opt_list rest).map (fun rs => r :: rs)

/-- One sweep-point simulation, taking a (slew, load) pair. -/
def sim_at (o : Oracle) (p : ℚ) (q : ℚ × ℚ) : Option DelayResult :=
  run_delay_simulation o p q.2 q.1

/-- A successful raw simulation whose four timing measurements all equal
`d` (seconds) and whose power measurements are 0. -/
def raw_ok (d : ℚ) : SimRaw :=
  ⟨some d, some d, some d, some d, 0, 0, 0, 0⟩

/-- A concrete simulator: timing measurements of 0.1 ns for any period
of at least 1 ns, timing measurements of 0.2 ns for periods in
[0.9 ns, 1 ns), and measurement failure below 0.9 ns. -/
def oracle_c1 : Oracle := fun p _ _ =>
  if 1 ≤ p then raw_ok (1 / 10000000000)
  else if 9 / 10 ≤ p then raw_ok (2 / 10000000000)
  else ⟨none, none, none, none, 0, 0, 0, 0⟩

/-- A leakage-power collaborator that always measures 0 W. -/
def po_zero : PowerOracle := fun _ _ => some 0

/-- The characterization table `analyze` produces for `oracle_c1` with
`fp0 = 1`, a single sweep point (slew 1, load 1): the minimum period
found is 1 ns, but the tabulated delays/slews are the 0.2 ns values
measured at the stale final trial period 31/32 ns. -/
def cd_c1 : CharData :=
  ⟨1, [1/5], [1/5], [1/5], [1/5], [0], [0], [0], [0], 0⟩

/-- A simulator whose measurements never parse. -/
def fail_oracle : Oracle := fun _ _ _ => ⟨none, none, none, none, 0, 0, 0, 0⟩

/-- A concrete analytical delay model for the fallback path. -/
def ad_c10 : ℚ → ℚ → BankDelay := fun s l => ⟨s + l, s⟩

/-- A concrete analytical power model for the fallback path. -/
def ap_c10 : ℚ → PowerModel := fun l => ⟨l, 1⟩

end Sram

namespace Sram

/-- `relative_compare` at equal arguments always succeeds at the 5%
tolerance. -/
theorem relative_compare_self (a : ℚ) :
    relative_compare a a (5/100) = true := by
  simp [relative_compare]

/-- A period validated by `run_delay_simulation` passes `try_period` when
the reference delays are the delays it itself measured. -/
theorem run_delay_sim_try_period (o : Oracle) (p l s : ℚ) (r : DelayResult)
    (h : run_delay_simulation o p l s = some r) :
    try_period o l s r.delay_lh r.delay_hl p = true := by
  cases h1 : (o p l s).delay_hl with
  | none => simp [run_delay_simulation, h1] at h
  | some dhl =>
  cases h2 : (o p l s).delay_lh with
  | none => simp [run_delay_simulation, h1, h2] at h
  | some dlh =>
  cases h3 : (o p l s).slew_hl with
  | none => simp [run_delay_simulation, h1, h2, h3] at h
  | some shl =>
  cases h4 : (o p l s).slew_lh with
  | none => simp [run_delay_simulation, h1, h2, h3, h4] at h
  | some slh =>
  simp only [run_delay_simulation, h1, h2, h3, h4] at h
  by_cases hc : (decide (dhl * sec_to_ns > p) || decide (dlh * sec_to_ns > p)
      || decide (shl * sec_to_ns > p) || decide (slh * sec_to_ns > p)) = true
  · rw [if_pos hc] at h
    exact absurd h (by simp)
  · rw [if_neg hc] at h
    have hr : r = ⟨dhl * sec_to_ns, dlh * sec_to_ns, shl * sec_to_ns,
        slh * sec_to_ns, (o p l s).read0_power * w_to_mw,
        (o p l s).read1_power * w_to_mw, (o p l s).write0_power * w_to_mw,
        (o p l s).write1_power * w_to_mw⟩ := by
      exact (Option.some.inj h).symm
    subst hr
    simp only [try_period, h1, h2, h3, h4]
    rw [if_neg hc]
    simp [relative_compare_self]

end Sram

namespace Sram

/-- Characterization of a successful `find_feasible_period_go` run: the
returned period is the starting period doubled `k` times, with `k + 1`
strictly below the fuel; the simulation at the returned period succeeded
and produced the returned reference delays; and every earlier (smaller)
period failed. -/
theorem ffp_go_some (o : Oracle) (l s : ℚ) :
    ∀ (t : Nat) (fp p dlh dhl : ℚ),
      find_feasible_period_go o l s fp t = some (p, dlh, dhl) →
      ∃ k, k + 1 < t ∧ p = 2 ^ k * fp ∧
        (∃ r, run_delay_simulation o p l s = some r ∧
          r.delay_lh = dlh ∧ r.delay_hl = dhl) ∧
        ∀ j, j < k → run_delay_simulation o (2 ^ j * fp) l s = none := by
  intro t
  induction t with
  | zero =>
    intro fp p dlh dhl h
    simp [find_feasible_period_go] at h
  | succ t ih =>
    intro fp p dlh dhl h
    simp only [find_feasible_period_go] at h
    by_cases ht : t = 0
    · rw [if_pos ht] at h
      exact absurd h (by simp)
    · rw [if_neg ht] at h
      cases hs : run_delay_simulation o fp l s with
      | some r =>
        rw [hs] at h
        simp only [Option.some.injEq, Prod.mk.injEq] at h
        obtain ⟨hp, hdlh, hdhl⟩ := h
        refine ⟨0, by omega, by rw [← hp]; ring, ⟨r, ?_, hdlh, hdhl⟩, ?_⟩
        · rw [← hp]; exact hs
        · intro j hj; omega
      | none =>
        rw [hs] at h
        obtain ⟨k, hk, hp, hr, hfail⟩ := ih (2 * fp) p dlh dhl h
        refine ⟨k + 1, by omega, by rw [hp]; ring, hr, ?_⟩
        intro j hj
        cases j with
        | zero => simpa using hs
        | succ j' =>
          have hj' := hfail j' (by omega)
          have heq : (2 : ℚ) ^ (j' + 1) * fp = 2 ^ j' * (2 * fp) := by ring
          rw [heq]
          exact hj'

/-- The `find_feasible_period` loop with fuel `t + 1` attempts at most
`t` simulations. -/
theorem ffp_sim_count_le (o : Oracle) (l s : ℚ) :
    ∀ (t : Nat) (fp : ℚ), ffp_sim_count o l s fp (t + 1) ≤ t := by
  intro t
  induction t with
  | zero => intro fp; simp [ffp_sim_count]
  | succ t ih =>
    intro fp
    rw [ffp_sim_count]
    rw [if_neg (by omega : ¬ (t + 1 = 0))]
    cases hs : run_delay_simulation o fp l s with
    | some r =>
      show (1 : Nat) ≤ t + 1
      omega
    | none =>
      show 1 + ffp_sim_count o l s (2 * fp) (t + 1) ≤ t + 1
      have := ih (2 * fp)
      omega

/-- If every period reachable inside the budget fails, the
`find_feasible_period` loop reports the fatal timeout (`none`). -/
theorem ffp_go_all_fail (o : Oracle) (l s : ℚ) :
    ∀ (t : Nat) (fp : ℚ),
      (∀ j, j < t → run_delay_simulation o (2 ^ j * fp) l s = none) →
      find_feasible_period_go o l s fp (t + 1) = none := by
  intro t
  induction t with
  | zero => intro fp _; simp [find_feasible_period_go]
  | succ t ih =>
    intro fp hfail
    rw [find_feasible_period_go]
    rw [if_neg (by omega : ¬ (t + 1 = 0))]
    have h0 : run_delay_simulation o fp l s = none := by
      have := hfail 0 (by omega)
      simpa using this
    rw [h0]
    exact ih (2 * fp) (fun j hj => by
      have := hfail (j + 1) (by omega)
      have heq : (2 : ℚ) ^ (j + 1) * fp = 2 ^ j * (2 * fp) := by ring
      rw [heq] at this
      exact this)

/-- Invariant of the `find_min_period` binary search: if the current
upper bound passes `try_period`, any returned period passes it too. -/
theorem fmp_go_feasible (o : Oracle) (l s a b : ℚ) :
    ∀ (t : Nat) (ub lb p pf : ℚ),
      try_period o l s a b ub = true →
      find_min_period_go o l s a b ub lb t = some (p, pf) →
      try_period o l s a b p = true := by
  intro t
  induction t with
  | zero =>
    intro ub lb p pf _ h
    simp [find_min_period_go] at h
  | succ t ih =>
    intro ub lb p pf hub h
    simp only [find_min_period_go] at h
    by_cases ht : t = 0
    · rw [if_pos ht] at h
      exact absurd h (by simp)
    · rw [if_neg ht] at h
      by_cases htp : try_period o l s a b ((ub + lb) / 2) = true
      · rw [if_pos htp] at h
        by_cases hrc : relative_compare ((ub + lb) / 2) lb (5/100) = true
        · rw [if_pos hrc] at h
          simp only [Option.some.injEq, Prod.mk.injEq] at h
          rw [← h.1]
          exact htp
        · rw [if_neg hrc] at h
          exact ih _ _ _ _ htp h
      · rw [if_neg htp] at h
        by_cases hrc : relative_compare ub ((ub + lb) / 2) (5/100) = true
        · rw [if_pos hrc] at h
          simp only [Option.some.injEq, Prod.mk.injEq] at h
          rw [← h.1]
          exact hub
        · rw [if_neg hrc] at h
          exact ih _ _ _ _ hub h

end Sram

namespace Sram

/-- Claim C2: throughout `find_min_period` the upper bound is feasible —
it starts as the period found by `find_feasible_period` (whose returned
reference delays are the delays measured at that period) and is replaced
only by trial periods accepted by `try_period`; the search returns the
upper bound once the bounds are within the 5% relative tolerance, so a
returned minimum period always passes `try_period` (in particular the
tolerance check) against the feasible reference delays. -/
theorem find_min_period_returns_feasible (o : Oracle)
    (l s fp0 fper fdlh fdhl p pf : ℚ)
    (hffp : find_feasible_period o l s fp0 = some (fper, fdlh, fdhl))
    (hfmp : find_min_period o l s fdlh fdhl fper = some (p, pf)) :
    try_period o l s fdlh fdhl p = true := by
  obtain ⟨k, _, _, ⟨r, hr, hlh, hhl⟩, _⟩ :=
    ffp_go_some o l s 8 fp0 fper fdlh fdhl hffp
  have hub : try_period o l s fdlh fdhl fper = true := by
    have := run_delay_sim_try_period o fper l s r hr
    rw [hlh, hhl] at this
    exact this
  exact fmp_go_feasible o l s fdlh fdhl 25 fper 0 p pf hub hfmp

/-- Witness for C2 at a concrete simulator: the feasible search returns
period 1 with reference delays 0.1 ns, the binary search returns minimum
period 1, and that period indeed passes `try_period`. -/
theorem find_min_period_returns_feasible_witness :
    try_period oracle_c1 1 1 (1/10) (1/10) 1 = true :=
  find_min_period_returns_feasible oracle_c1 1 1 1 1 (1/10) (1/10) 1 (31/32)
    (by norm_num [find_feasible_period, find_feasible_period_go,
      run_delay_simulation, oracle_c1, raw_ok, sec_to_ns, w_to_mw])
    (by norm_num [find_min_period, find_min_period_go, try_period, oracle_c1,
      raw_ok, sec_to_ns, relative_compare, abs_eq_max_neg, max_def])

end Sram

namespace Sram

/-- Claim C3: `try_period` succeeds iff all four measurements parse as
numbers, all four (rescaled to ns) are at most the trial period, and the
two delays (but not the slews) are within 5% relative tolerance of the
feasible reference delays; and each `find_min_period` iteration tries
the midpoint of the current bounds, making it the new upper bound on
success and the new lower bound on failure. -/
theorem try_period_characterization :
    (∀ (o : Oracle) (l s fdlh fdhl p : ℚ),
      try_period o l s fdlh fdhl p = true ↔
        ∃ dhl dlh shl slh : ℚ,
          (o p l s).delay_hl = some dhl ∧ (o p l s).delay_lh = some dlh ∧
          (o p l s).slew_hl = some shl ∧ (o p l s).slew_lh = some slh ∧
          dhl * sec_to_ns ≤ p ∧ dlh * sec_to_ns ≤ p ∧
          shl * sec_to_ns ≤ p ∧ slh * sec_to_ns ≤ p ∧
          relative_compare (dlh * sec_to_ns) fdlh (5/100) = true ∧
          relative_compare (dhl * sec_to_ns) fdhl (5/100) = true) ∧
    (∀ (o : Oracle) (l s fdlh fdhl ub lb : ℚ) (t : Nat),
      find_min_period_go o l s fdlh fdhl ub lb (t + 2) =
        if try_period o l s fdlh fdhl ((ub + lb) / 2) = true then
          (if relative_compare ((ub + lb) / 2) lb (5/100) = true then
            some ((ub + lb) / 2, (ub + lb) / 2)
          else find_min_period_go o l s fdlh fdhl ((ub + lb) / 2) lb (t + 1))
        else
          (if relative_compare ub ((ub + lb) / 2) (5/100) = true then
            some (ub, (ub + lb) / 2)
          else find_min_period_go o l s fdlh fdhl ub ((ub + lb) / 2) (t + 1))) := by
  constructor
  · intro o l s fdlh fdhl p
    constructor
    · intro h
      cases h1 : (o p l s).delay_hl with
      | none => simp [try_period, h1] at h
      | some dhl =>
      cases h2 : (o p l s).delay_lh with
      | none => simp [try_period, h1, h2] at h
      | some dlh =>
      cases h3 : (o p l s).slew_hl with
      | none => simp [try_period, h1, h2, h3] at h
      | some shl =>
      cases h4 : (o p l s).slew_lh with
      | none => simp [try_period, h1, h2, h3, h4] at h
      | some slh =>
      simp only [try_period, h1, h2, h3, h4] at h
      refine ⟨dhl, dlh, shl, slh, rfl, rfl, rfl, rfl, ?_⟩
      split_ifs at h with hc hr1 hr2
      · simp only [Bool.or_eq_true, decide_eq_true_eq, not_or, not_lt] at hc
        simp only [Bool.not_eq_true', Bool.not_eq_false] at hr1 hr2
        obtain ⟨⟨⟨ha, hb⟩, hcc⟩, hd⟩ := hc
        exact ⟨ha, hb, hcc, hd, hr1, hr2⟩
    · rintro ⟨dhl, dlh, shl, slh, h1, h2, h3, h4,
        hle1, hle2, hle3, hle4, hr1, hr2⟩
      simp [try_period, h1, h2, h3, h4, hr1, hr2, not_lt.mpr hle1,
        not_lt.mpr hle2, not_lt.mpr hle3, not_lt.mpr hle4]
  · intro o l s fdlh fdhl ub lb t
    by_cases htp : try_period o l s fdlh fdhl ((ub + lb) / 2) = true
    · simp [find_min_period_go, htp]
    · simp only [Bool.not_eq_true] at htp
      simp [find_min_period_go, htp]

end Sram

namespace Sram

/-- Claim C5 (amended): `find_feasible_period` starts from the
technology-supplied nominal period and doubles it after every failed
simulation, but its budget counter of 8 — decremented before the check —
admits at most 7 actual simulation attempts: a successful run doubles at
most 6 times, and if the first 7 periods all fail the search aborts with
the fatal timeout instead of looping forever. -/
theorem find_feasible_period_budget :
    (∀ (o : Oracle) (l s fp0 : ℚ), ffp_sim_count o l s fp0 8 ≤ 7) ∧
    (∀ (o : Oracle) (l s fp0 p dlh dhl : ℚ),
      find_feasible_period o l s fp0 = some (p, dlh, dhl) →
      ∃ k, k < 7 ∧ p = 2 ^ k * fp0 ∧
        (∃ r, run_delay_simulation o p l s = some r ∧
          r.delay_lh = dlh ∧ r.delay_hl = dhl) ∧
        ∀ j, j < k → run_delay_simulation o (2 ^ j * fp0) l s = none) ∧
    (∀ (o : Oracle) (l s fp0 : ℚ),
      (∀ j, j < 7 → run_delay_simulation o (2 ^ j * fp0) l s = none) →
      find_feasible_period o l s fp0 = none) := by
  refine ⟨?_, ?_, ?_⟩
  · intro o l s fp0
    exact ffp_sim_count_le o l s 7 fp0
  · intro o l s fp0 p dlh dhl h
    obtain ⟨k, hk, hp, hr, hfail⟩ := ffp_go_some o l s 8 fp0 p dlh dhl h
    exact ⟨k, by omega, hp, hr, hfail⟩
  · intro o l s fp0 hfail
    exact ffp_go_all_fail o l s 7 fp0 hfail

/-- Witness for C5: with a simulator that never produces a valid
measurement, the feasible-period search aborts fatally. -/
theorem find_feasible_period_budget_witness :
    find_feasible_period fail_oracle 1 1 1 = none :=
  find_feasible_period_budget.2.2 fail_oracle 1 1 1 (fun _ _ => rfl)

/-- Counterexample to C5 as stated: with the always-failing simulator
the fatal timeout fires after exactly 7 simulation attempts — the
claimed 8th attempt is never performed. -/
theorem find_feasible_period_eight_attempts_counterexample :
    ffp_sim_count fail_oracle 1 1 1 8 = 7 ∧
    find_feasible_period fail_oracle 1 1 1 = none ∧
    (7 : Nat) ≠ 8 := by
  refine ⟨rfl, rfl, by omega⟩

/-- Claim C6: `check_arguments` accepts a probe data-bit index equal to
the word width (the code checks `probe_data > word_size`, not `≥`), even
though such an index selects the nonexistent output `DOUT[word_size]`;
in general it accepts exactly the integers `0 ≤ i ≤ word_size`. -/
theorem check_arguments_accepts_word_size_index :
    check_arguments 2 4 ['1', '1'] 4 = true ∧
    (∀ probe_data : Int,
      check_arguments 2 4 ['1', '1'] probe_data = true ↔
        0 ≤ probe_data ∧ probe_data ≤ 4) := by
  constructor
  · rfl
  · intro probe_data
    simp [check_arguments]
    omega

end Sram

namespace Sram

/-- `opt_list` distributes over append. -/
theorem opt_list_append {α : Type} :
    ∀ (xs ys : List (Option α)) (as bs : List α),
      opt_list xs = some as → opt_list ys = some bs →
      opt_list (xs ++ ys) = some (as ++ bs) := by
  intro xs
  induction xs with
  | nil =>
    intro ys as bs hx hy
    simp only [opt_list] at hx
    obtain rfl := Option.some.inj hx
    exact hy
  | cons x xs ih =>
    intro ys as bs hx hy
    cases x with
    | none => simp [opt_list] at hx
    | some r =>
      simp only [opt_list] at hx
      cases hrest : opt_list xs with
      | none => rw [hrest] at hx; simp at hx
      | some rs =>
        rw [hrest] at hx
        obtain rfl : r :: rs = as := Option.some.inj hx
        rw [List.cons_append]
        show (opt_list (xs ++ ys)).map (fun l => r :: l) =
          some (r :: rs ++ bs)
        rw [ih ys rs bs hrest hy]
        rfl

/-- Characterization of a completed inner (load) sweep: every simulation
succeeded, delay/slew results are appended verbatim and power results
are appended after leakage substitution, in load order. -/
theorem sweep_loads_some (o : Oracle) (p t f s : ℚ) :
    ∀ (loads : List ℚ) (cd cd' : CharData),
      sweep_loads o p t f s loads cd = some cd' →
      ∃ rs, opt_list (loads.map
          (fun load => run_delay_simulation o p load s)) = some rs ∧
        cd'.min_period = cd.min_period ∧
        cd'.leakage_power = cd.leakage_power ∧
        cd'.delay_hl = cd.delay_hl ++ rs.map DelayResult.delay_hl ∧
        cd'.delay_lh = cd.delay_lh ++ rs.map DelayResult.delay_lh ∧
        cd'.slew_hl = cd.slew_hl ++ rs.map DelayResult.slew_hl ∧
        cd'.slew_lh = cd.slew_lh ++ rs.map DelayResult.slew_lh ∧
        cd'.read0_power = cd.read0_power ++
          rs.map (fun r => power_correct r.read0_power t f) ∧
        cd'.read1_power = cd.read1_power ++
          rs.map (fun r => power_correct r.read1_power t f) ∧
        cd'.write0_power = cd.write0_power ++
          rs.map (fun r => power_correct r.write0_power t f) ∧
        cd'.write1_power = cd.write1_power ++
          rs.map (fun r => power_correct r.write1_power t f) := by
  intro loads
  induction loads with
  | nil =>
    intro cd cd' h
    simp only [sweep_loads] at h
    obtain rfl := Option.some.inj h
    exact ⟨[], rfl, rfl, rfl, by simp, by simp, by simp, by simp,
      by simp, by simp, by simp, by simp⟩
  | cons load rest ih =>
    intro cd cd' h
    simp only [sweep_loads] at h
    cases hs : run_delay_simulation o p load s with
    | none => rw [hs] at h; simp at h
    | some r =>
      rw [hs] at h
      obtain ⟨rs, hrs, hmp, hlk, h1, h2, h3, h4, h5, h6, h7, h8⟩ :=
        ih (append_result t f cd r) cd' h
      refine ⟨r :: rs, ?_, ?_, ?_, ?_, ?_, ?_, ?_, ?_, ?_, ?_, ?_⟩
      · rw [List.map_cons, hs]
        show (opt_list (rest.map
          (fun load => run_delay_simulation o p load s))).map
          (fun l => r :: l) = some (r :: rs)
        rw [hrs]
        rfl
      · simpa [append_result] using hmp
      · simpa [append_result] using hlk
      · rw [h1]; simp [append_result]
      · rw [h2]; simp [append_result]
      · rw [h3]; simp [append_result]
      · rw [h4]; simp [append_result]
      · rw [h5]; simp [append_result]
      · rw [h6]; simp [append_result]
      · rw [h7]; simp [append_result]
      · rw [h8]; simp [append_result]

/-- Characterization of a completed sweep: the results correspond to
successful simulations over the (slew outer, load inner) sweep order. -/
theorem sweep_slews_some (o : Oracle) (p t f : ℚ) (loads : List ℚ) :
    ∀ (slews : List ℚ) (cd cd' : CharData),
      sweep_slews o p t f loads slews cd = some cd' →
      ∃ rs, opt_list ((sweep_pairs slews loads).map (sim_at o p)) = some rs ∧
        cd'.min_period = cd.min_period ∧
        cd'.leakage_power = cd.leakage_power ∧
        cd'.delay_hl = cd.delay_hl ++ rs.map DelayResult.delay_hl ∧
        cd'.delay_lh = cd.delay_lh ++ rs.map DelayResult.delay_lh ∧
        cd'.slew_hl = cd.slew_hl ++ rs.map DelayResult.slew_hl ∧
        cd'.slew_lh = cd.slew_lh ++ rs.map DelayResult.slew_lh ∧
        cd'.read0_power = cd.read0_power ++
          rs.map (fun r => power_correct r.read0_power t f) ∧
        cd'.read1_power = cd.read1_power ++
          rs.map (fun r => power_correct r.read1_power t f) ∧
        cd'.write0_power = cd.write0_power ++
          rs.map (fun r => power_correct r.write0_power t f) ∧
        cd'.write1_power = cd.write1_power ++
          rs.map (fun r => power_correct r.write1_power t f) := by
  intro slews
  induction slews with
  | nil =>
    intro cd cd' h
    simp only [sweep_slews] at h
    obtain rfl := Option.some.inj h
    exact ⟨[], by simp [sweep_pairs, opt_list], rfl, rfl, by simp, by simp,
      by simp, by simp, by simp, by simp, by simp, by simp⟩
  | cons s rest ih =>
    intro cd cd' h
    simp only [sweep_slews] at h
    cases hsl : sweep_loads o p t f s loads cd with
    | none => rw [hsl] at h; simp at h
    | some cd2 =>
      rw [hsl] at h
      obtain ⟨rs1, hrs1, hmp1, hlk1, a1, a2, a3, a4, a5, a6, a7, a8⟩ :=
        sweep_loads_some o p t f s loads cd cd2 hsl
      obtain ⟨rs2, hrs2, hmp2, hlk2, b1, b2, b3, b4, b5, b6, b7, b8⟩ :=
        ih cd2 cd' h
      have hpairs : (sweep_pairs (s :: rest) loads).map (sim_at o p) =
          (loads.map (fun load => run_delay_simulation o p load s)) ++
          (sweep_pairs rest loads).map (sim_at o p) := by
        simp only [sweep_pairs, List.flatMap_cons, List.map_append,
          List.map_map]
        congr 1
      refine ⟨rs1 ++ rs2, ?_, by rw [hmp2, hmp1], by rw [hlk2, hlk1],
        ?_, ?_, ?_, ?_, ?_, ?_, ?_, ?_⟩
      · rw [hpairs]
        exact opt_list_append _ _ rs1 rs2 hrs1 hrs2
      · rw [b1, a1]; simp
      · rw [b2, a2]; simp
      · rw [b3, a3]; simp
      · rw [b4, a4]; simp
      · rw [b5, a5]; simp
      · rw [b6, a6]; simp
      · rw [b7, a7]; simp
      · rw [b8, a8]; simp

end Sram

namespace Sram

/-- Full characterization of a successful `analyze` run: the sweep
simulations all run at `p_used`, the final trial period of the binary
search (not necessarily the returned minimum period), and the table rows
are exactly those results — delays/slews verbatim, powers after leakage
substitution. -/
theorem analyze_some_spec (o : Oracle) (po : PowerOracle) (fp0 : ℚ)
    (slews loads : List ℚ) (cd : CharData) (p_used : ℚ)
    (h : analyze o po fp0 slews loads = some (cd, p_used)) :
    ∃ max_load max_slew fper fdlh fdhl minp full_leak trim_leak rs,
      pymax loads = some max_load ∧ pymax slews = some max_slew ∧
      find_feasible_period o max_load max_slew fp0 =
        some (fper, fdlh, fdhl) ∧
      find_min_period o max_load max_slew fdlh fdhl fper =
        some (minp, p_used) ∧
      run_power_simulation po p_used = some (full_leak, trim_leak) ∧
      opt_list ((sweep_pairs slews loads).map (sim_at o p_used)) =
        some rs ∧
      cd.min_period = minp ∧
      cd.leakage_power = full_leak ∧
      cd.delay_hl = rs.map DelayResult.delay_hl ∧
      cd.delay_lh = rs.map DelayResult.delay_lh ∧
      cd.slew_hl = rs.map DelayResult.slew_hl ∧
      cd.slew_lh = rs.map DelayResult.slew_lh ∧
      cd.read0_power =
        rs.map (fun r => power_correct r.read0_power trim_leak full_leak) ∧
      cd.read1_power =
        rs.map (fun r => power_correct r.read1_power trim_leak full_leak) ∧
      cd.write0_power =
        rs.map (fun r => power_correct r.write0_power trim_leak full_leak) ∧
      cd.write1_power =
        rs.map (fun r => power_correct r.write1_power trim_leak full_leak) := by
  unfold analyze at h
  cases hml : pymax loads with
  | none =>
    rw [hml] at h
    cases hms : pymax slews <;> rw [hms] at h <;> simp at h
  | some max_load =>
  cases hms : pymax slews with
  | none => rw [hml, hms] at h; simp at h
  | some max_slew =>
  rw [hml, hms] at h
  dsimp only at h
  cases hffp : find_feasible_period o max_load max_slew fp0 with
  | none => rw [hffp] at h; simp at h
  | some trip =>
  obtain ⟨fper, fdlh, fdhl⟩ := trip
  rw [hffp] at h
  dsimp only at h
  by_cases hpos : (decide (fdlh ≤ 0) || decide (fdhl ≤ 0)) = true
  · rw [if_pos hpos] at h; simp at h
  · rw [if_neg hpos] at h
    cases hfmp : find_min_period o max_load max_slew fdlh fdhl fper with
    | none => rw [hfmp] at h; simp at h
    | some pr =>
    obtain ⟨minp, p_final⟩ := pr
    rw [hfmp] at h
    dsimp only at h
    cases hps : run_power_simulation po p_final with
    | none => rw [hps] at h; simp at h
    | some pw =>
    obtain ⟨full_leak, trim_leak⟩ := pw
    rw [hps] at h
    dsimp only at h
    cases hsw : sweep_slews o p_final trim_leak full_leak loads slews
        (init_char_data minp full_leak) with
    | none => rw [hsw] at h; simp at h
    | some cd0 =>
    rw [hsw] at h
    simp only [Option.some.injEq, Prod.mk.injEq] at h
    obtain ⟨rfl, rfl⟩ := h
    obtain ⟨rs, hrs, hmp, hlk, h1, h2, h3, h4, h5, h6, h7, h8⟩ :=
      sweep_slews_some o p_final trim_leak full_leak loads slews
        (init_char_data minp full_leak) cd0 hsw
    refine ⟨max_load, max_slew, fper, fdlh, fdhl, minp, full_leak,
      trim_leak, rs, rfl, rfl, hffp, hfmp, hps, hrs, ?_, ?_, ?_, ?_,
      ?_, ?_, ?_, ?_, ?_, ?_⟩
    · simpa [init_char_data] using hmp
    · simpa [init_char_data] using hlk
    · simpa [init_char_data] using h1
    · simpa [init_char_data] using h2
    · simpa [init_char_data] using h3
    · simpa [init_char_data] using h4
    · simpa [init_char_data] using h5
    · simpa [init_char_data] using h6
    · simpa [init_char_data] using h7
    · simpa [init_char_data] using h8

end Sram

namespace Sram

/-- Concrete evaluation of `analyze` on `oracle_c1`: the binary search
returns minimum period 1 ns, but its final (failed) trial period 31/32 ns
is the period state left behind, and the sweep simulations therefore
measure the 0.2 ns delays of that band instead of the 0.1 ns delays at
the minimum period. -/
theorem analyze_c1_eval :
    analyze oracle_c1 po_zero 1 [1] [1] = some (cd_c1, 31/32) := by
  norm_num [analyze, pymax, find_feasible_period, find_feasible_period_go,
    find_min_period, find_min_period_go, try_period, run_delay_simulation,
    run_power_simulation, sweep_slews, sweep_loads, append_result,
    init_char_data, power_correct, oracle_c1, raw_ok, po_zero, cd_c1,
    sec_to_ns, w_to_mw, relative_compare, abs_eq_max_neg, max_def]

end Sram

namespace Sram

/-- Claim C1 (amended): for every (slew, load) pair of the full Cartesian
product of the sweep — slew outer loop, load inner loop — `analyze` runs
the full delay simulation at the period state left behind by
`find_min_period`, i.e. the final binary-search trial period, which
equals the returned minimum period only when the final trial succeeded,
and appends the delay/slew results of those simulations verbatim to the
characterization table. -/
theorem analyze_sweeps_at_final_search_period (o : Oracle)
    (po : PowerOracle) (fp0 : ℚ) (slews loads : List ℚ) (cd : CharData)
    (p_used : ℚ) (h : analyze o po fp0 slews loads = some (cd, p_used)) :
    (∃ max_load max_slew fper fdlh fdhl minp,
      pymax loads = some max_load ∧ pymax slews = some max_slew ∧
      find_feasible_period o max_load max_slew fp0 =
        some (fper, fdlh, fdhl) ∧
      find_min_period o max_load max_slew fdlh fdhl fper =
        some (minp, p_used) ∧
      cd.min_period = minp) ∧
    (∃ rs,
      opt_list ((sweep_pairs slews loads).map (sim_at o p_used)) =
        some rs ∧
      cd.delay_hl = rs.map DelayResult.delay_hl ∧
      cd.delay_lh = rs.map DelayResult.delay_lh ∧
      cd.slew_hl = rs.map DelayResult.slew_hl ∧
      cd.slew_lh = rs.map DelayResult.slew_lh) := by
  obtain ⟨ml, ms, fper, fdlh, fdhl, minp, fl, tl, rs, hml, hms, hffp,
    hfmp, hps, hrs, hmp, hlk, h1, h2, h3, h4, h5, h6, h7, h8⟩ :=
    analyze_some_spec o po fp0 slews loads cd p_used h
  exact ⟨⟨ml, ms, fper, fdlh, fdhl, minp, hml, hms, hffp, hfmp, hmp⟩,
    ⟨rs, hrs, h1, h2, h3, h4⟩⟩

/-- Counterexample to C1 as stated: for `oracle_c1` the returned minimum
period is 1 ns, but the sweep simulation runs at the stale final trial
period 31/32 ns, so the table holds the 0.2 ns delay measured there
instead of the 0.1 ns delay a simulation at the minimum period
produces. -/
theorem analyze_sweep_period_counterexample :
    analyze oracle_c1 po_zero 1 [1] [1] = some (cd_c1, 31/32) ∧
    cd_c1.min_period = 1 ∧ ((31 : ℚ)/32) ≠ 1 ∧
    cd_c1.delay_lh = [1/5] ∧
    (run_delay_simulation oracle_c1 1 1 1).map DelayResult.delay_lh =
      some (1/10) ∧
    ((1 : ℚ)/5) ≠ 1/10 := by
  refine ⟨analyze_c1_eval, rfl, by norm_num, rfl, ?_, by norm_num⟩
  norm_num [run_delay_simulation, oracle_c1, raw_ok, sec_to_ns, w_to_mw]

/-- Witness for the amended C1 at the concrete simulator. -/
theorem analyze_sweeps_at_final_search_period_witness :
    (∃ max_load max_slew fper fdlh fdhl minp,
      pymax [(1:ℚ)] = some max_load ∧ pymax [(1:ℚ)] = some max_slew ∧
      find_feasible_period oracle_c1 max_load max_slew 1 =
        some (fper, fdlh, fdhl) ∧
      find_min_period oracle_c1 max_load max_slew fdlh fdhl fper =
        some (minp, 31/32) ∧
      cd_c1.min_period = minp) ∧
    (∃ rs,
      opt_list ((sweep_pairs [(1:ℚ)] [(1:ℚ)]).map
        (sim_at oracle_c1 (31/32))) = some rs ∧
      cd_c1.delay_hl = rs.map DelayResult.delay_hl ∧
      cd_c1.delay_lh = rs.map DelayResult.delay_lh ∧
      cd_c1.slew_hl = rs.map DelayResult.slew_hl ∧
      cd_c1.slew_lh = rs.map DelayResult.slew_lh) :=
  analyze_sweeps_at_final_search_period oracle_c1 po_zero 1 [1] [1] cd_c1
    (31/32) analyze_c1_eval

/-- Claim C7: every dynamic power value placed in the characterization
table equals the trimmed-netlist measurement minus the trimmed-array
leakage plus the full-array leakage; the correction is linear in its
three inputs, and at measured = 0.42 mW, trim leakage = 0.05 mW, full
leakage = 0.08 mW it yields 0.45 mW. -/
theorem analyze_power_linear_correction :
    (∀ (o : Oracle) (po : PowerOracle) (fp0 : ℚ) (slews loads : List ℚ)
        (cd : CharData) (p_used : ℚ),
      analyze o po fp0 slews loads = some (cd, p_used) →
      ∃ full_leak trim_leak rs,
        run_power_simulation po p_used = some (full_leak, trim_leak) ∧
        opt_list ((sweep_pairs slews loads).map (sim_at o p_used)) =
          some rs ∧
        cd.read0_power = rs.map
          (fun r => power_correct r.read0_power trim_leak full_leak) ∧
        cd.read1_power = rs.map
          (fun r => power_correct r.read1_power trim_leak full_leak) ∧
        cd.write0_power = rs.map
          (fun r => power_correct r.write0_power trim_leak full_leak) ∧
        cd.write1_power = rs.map
          (fun r => power_correct r.write1_power trim_leak full_leak)) ∧
    (∀ m t f : ℚ, power_correct m t f = m - t + f) ∧
    (∀ m1 t1 f1 m2 t2 f2 : ℚ,
      power_correct (m1 + m2) (t1 + t2) (f1 + f2) =
        power_correct m1 t1 f1 + power_correct m2 t2 f2) ∧
    (∀ c m t f : ℚ,
      power_correct (c * m) (c * t) (c * f) = c * power_correct m t f) ∧
    power_correct (42/100) (5/100) (8/100) = 45/100 := by
  refine ⟨?_, fun m t f => rfl, ?_, ?_, by norm_num [power_correct]⟩
  · intro o po fp0 slews loads cd p_used h
    obtain ⟨ml, ms, fper, fdlh, fdhl, minp, fl, tl, rs, hml, hms, hffp,
      hfmp, hps, hrs, hmp, hlk, h1, h2, h3, h4, h5, h6, h7, h8⟩ :=
      analyze_some_spec o po fp0 slews loads cd p_used h
    exact ⟨fl, tl, rs, hps, hrs, h5, h6, h7, h8⟩
  · intro m1 t1 f1 m2 t2 f2
    unfold power_correct
    ring
  · intro c m t f
    unfold power_correct
    ring

/-- Witness for C7 at the concrete simulator. -/
theorem analyze_power_linear_correction_witness :
    ∃ full_leak trim_leak rs,
      run_power_simulation po_zero (31/32) = some (full_leak, trim_leak) ∧
      opt_list ((sweep_pairs [(1:ℚ)] [(1:ℚ)]).map
        (sim_at oracle_c1 (31/32))) = some rs ∧
      cd_c1.read0_power = rs.map
        (fun r => power_correct r.read0_power trim_leak full_leak) ∧
      cd_c1.read1_power = rs.map
        (fun r => power_correct r.read1_power trim_leak full_leak) ∧
      cd_c1.write0_power = rs.map
        (fun r => power_correct r.write0_power trim_leak full_leak) ∧
      cd_c1.write1_power = rs.map
        (fun r => power_correct r.write1_power trim_leak full_leak) :=
  analyze_power_linear_correction.1 oracle_c1 po_zero 1 [1] [1] cd_c1
    (31/32) analyze_c1_eval

end Sram

namespace Sram

/-- One `add_bits` step preserves the stream count and grows every
stream by one entry. -/
theorem add_bits_invariant {n : Nat} :
    ∀ (dv : List (List Bool)) (bits : List Bool),
      bits.length = dv.length →
      (∀ x ∈ dv, x.length = n) →
      (add_bits dv bits).length = dv.length ∧
      ∀ y ∈ add_bits dv bits, y.length = n + 1 := by
  intro dv
  induction dv with
  | nil =>
    intro bits h1 _
    constructor
    · simp [add_bits]
    · intro y hy
      simp [add_bits] at hy
  | cons x xs ih =>
    intro bits h1 h3
    cases bits with
    | nil => simp at h1
    | cons b bs =>
      have hlen : bs.length = xs.length := by simpa using h1
      obtain ⟨ihl, ihm⟩ := ih bs hlen
        (fun z hz => h3 z (List.mem_cons_of_mem _ hz))
      constructor
      · simp only [add_bits, List.zipWith_cons_cons, List.length_cons]
        rw [show List.zipWith (fun s c => s ++ [c]) xs bs =
          add_bits xs bs from rfl, ihl]
      · intro y hy
        simp only [add_bits, List.zipWith_cons_cons, List.mem_cons] at hy
        rcases hy with hy | hy
        · subst hy
          simp [h3 x (List.mem_cons_self x xs)]
        · exact ihm y hy

end Sram

namespace Sram

/-- The control-value lists produced by `create_test_cycles`, one entry
per cycle: noop, write, write, read, read, noop, write, write, read,
read, noop. -/
theorem create_test_cycles_controls (ws as : Nat) (addr : List Bool)
    (p : ℚ) :
    (create_test_cycles ws as addr p).st.csb_values =
      [1, 0, 0, 0, 0, 1, 0, 0, 0, 0, 1] ∧
    (create_test_cycles ws as addr p).st.web_values =
      [1, 0, 0, 1, 1, 1, 0, 0, 1, 1, 1] ∧
    (create_test_cycles ws as addr p).st.oeb_values =
      [1, 1, 1, 0, 0, 1, 1, 1, 0, 0, 1] := by
  refine ⟨?_, ?_, ?_⟩ <;>
    simp [create_test_cycles, add_noop, add_read, add_write, add_cycle]

/-- The recorded measurement-cycle indices of `create_test_cycles`. -/
theorem create_test_cycles_indices (ws as : Nat) (addr : List Bool)
    (p : ℚ) :
    (create_test_cycles ws as addr p).write0_cycle = 2 ∧
    (create_test_cycles ws as addr p).read0_cycle = 4 ∧
    (create_test_cycles ws as addr p).idle_cycle = 5 ∧
    (create_test_cycles ws as addr p).write1_cycle = 6 ∧
    (create_test_cycles ws as addr p).read1_cycle = 9 := by
  refine ⟨?_, ?_, ?_, ?_, ?_⟩ <;>
    simp [create_test_cycles, add_noop, add_read, add_write, add_cycle]

/-- The cycle timestamps of `create_test_cycles`: one rising edge per
period, starting at time 0. -/
theorem create_test_cycles_times (ws as : Nat) (addr : List Bool)
    (p : ℚ) :
    (create_test_cycles ws as addr p).st.cycle_times =
      [0, p, 2*p, 3*p, 4*p, 5*p, 6*p, 7*p, 8*p, 9*p, 10*p] := by
  simp only [create_test_cycles, add_noop, add_read, add_write, add_cycle]
  norm_num
  refine ⟨by ring, by ring, by ring, by ring, by ring, by ring, by ring,
    by ring, by ring⟩

end Sram

namespace Sram

/-- Counterexample to C4 as stated: for a concrete valid probe point the
test program has 11 cycles (ten operations plus the trailing idle cycle),
not 10. -/
theorem create_test_cycles_ten_counterexample :
    (create_test_cycles 1 2 [true, true] (1:ℚ)).st.cycle_times.length = 11 ∧
    (create_test_cycles 1 2 [true, true] (1:ℚ)).st.cycle_times.length ≠ 10 := by
  refine ⟨?_, ?_⟩
  · rfl
  · intro hcontra
    rw [show (create_test_cycles 1 2 [true, true]
      (1:ℚ)).st.cycle_times.length = 11 from rfl] at hcontra
    omega

/-- Claim C4 (amended): for any probe address and bit,
`create_test_cycles` produces exactly 11 cycles, and the recorded
write0/write1/read0/read1 indices point at cycles whose control values
(chip-select, write-enable, output-enable) encode a write, write, read
and read operation respectively. -/
theorem create_test_cycles_count_and_kinds (ws as : Nat)
    (addr : List Bool) (p : ℚ) :
    (create_test_cycles ws as addr p).st.cycle_times.length = 11 ∧
    kind_at (create_test_cycles ws as addr p).st
      (create_test_cycles ws as addr p).write0_cycle =
      some OpKind.writeOp ∧
    kind_at (create_test_cycles ws as addr p).st
      (create_test_cycles ws as addr p).write1_cycle =
      some OpKind.writeOp ∧
    kind_at (create_test_cycles ws as addr p).st
      (create_test_cycles ws as addr p).read0_cycle =
      some OpKind.readOp ∧
    kind_at (create_test_cycles ws as addr p).st
      (create_test_cycles ws as addr p).read1_cycle =
      some OpKind.readOp := by
  obtain ⟨hcsb, hweb, hoeb⟩ := create_test_cycles_controls ws as addr p
  obtain ⟨hi0, hi1, hi2, hi3, hi4⟩ := create_test_cycles_indices ws as addr p
  refine ⟨?_, ?_, ?_, ?_, ?_⟩
  · rw [create_test_cycles_times ws as addr p]
    rfl
  · rw [hi0]; simp [kind_at, hcsb, hweb, hoeb]
  · rw [hi3]; simp [kind_at, hcsb, hweb, hoeb]
  · rw [hi1]; simp [kind_at, hcsb, hweb, hoeb]
  · rw [hi4]; simp [kind_at, hcsb, hweb, hoeb]

/-- Iterating `add_bits` over a list of words, each as wide as the
stream count, preserves the stream count and grows every stream by one
entry per word. -/
theorem add_bits_chain :
    ∀ (bss : List (List Bool)) (n : Nat) (dv : List (List Bool)),
      (∀ x ∈ dv, x.length = n) →
      (∀ bs ∈ bss, bs.length = dv.length) →
      (bss.foldl add_bits dv).length = dv.length ∧
      ∀ y ∈ bss.foldl add_bits dv, y.length = n + bss.length := by
  intro bss
  induction bss with
  | nil =>
    intro n dv h3 _
    refine ⟨rfl, ?_⟩
    intro y hy
    simpa using h3 y hy
  | cons bs rest ih =>
    intro n dv h3 hmem
    obtain ⟨hl, hm⟩ := add_bits_invariant dv bs
      (hmem bs (List.mem_cons_self bs rest)) h3
    obtain ⟨ihl, ihm⟩ := ih (n + 1) (add_bits dv bs) hm
      (fun z hz => by rw [hl]; exact hmem z (List.mem_cons_of_mem _ hz))
    refine ⟨by rw [List.foldl_cons, ihl, hl], ?_⟩
    intro y hy
    rw [List.foldl_cons] at hy
    have hlen := ihm y hy
    rw [hlen]
    simp only [List.length_cons]
    omega

/-- The per-bit data and address streams of `create_test_cycles`: one
stream per data bit and per address bit, each with one entry per
cycle. -/
theorem create_test_cycles_streams (ws as : Nat) (addr : List Bool)
    (p : ℚ) (h : addr.length = as) :
    (create_test_cycles ws as addr p).st.data_values.length = ws ∧
    (∀ x ∈ (create_test_cycles ws as addr p).st.data_values,
      x.length = 11) ∧
    (create_test_cycles ws as addr p).st.addr_values.length = as ∧
    (∀ x ∈ (create_test_cycles ws as addr p).st.addr_values,
      x.length = 11) := by
  have hd : (create_test_cycles ws as addr p).st.data_values =
      ([List.replicate ws false, List.replicate ws true,
        List.replicate ws false, List.replicate ws false,
        List.replicate ws false, List.replicate ws false,
        List.replicate ws true, List.replicate ws false,
        List.replicate ws false, List.replicate ws false,
        List.replicate ws false]).foldl add_bits
        (List.replicate ws ([] : List Bool)) := rfl
  have ha : (create_test_cycles ws as addr p).st.addr_values =
      ([addr.map (fun b => !b), addr.map (fun b => !b), addr,
        addr.map (fun b => !b), addr, addr.map (fun b => !b), addr,
        addr.map (fun b => !b), addr.map (fun b => !b), addr,
        addr]).foldl add_bits (List.replicate as ([] : List Bool)) := rfl
  have d0m : ∀ x ∈ List.replicate ws ([] : List Bool), x.length = 0 := by
    intro x hx
    rw [List.eq_of_mem_replicate hx]
    rfl
  have a0m : ∀ x ∈ List.replicate as ([] : List Bool), x.length = 0 := by
    intro x hx
    rw [List.eq_of_mem_replicate hx]
    rfl
  obtain ⟨hds, hdm⟩ := add_bits_chain
    [List.replicate ws false, List.replicate ws true,
      List.replicate ws false, List.replicate ws false,
      List.replicate ws false, List.replicate ws false,
      List.replicate ws true, List.replicate ws false,
      List.replicate ws false, List.replicate ws false,
      List.replicate ws false] 0
    (List.replicate ws ([] : List Bool)) d0m (by
    intro bs hbs
    simp only [List.mem_cons, List.not_mem_nil, or_false] at hbs
    rcases hbs with rfl | rfl | rfl | rfl | rfl | rfl | rfl | rfl |
      rfl | rfl | rfl <;> simp)
  obtain ⟨has, ham⟩ := add_bits_chain
    [addr.map (fun b => !b), addr.map (fun b => !b), addr,
      addr.map (fun b => !b), addr, addr.map (fun b => !b), addr,
      addr.map (fun b => !b), addr.map (fun b => !b), addr, addr] 0
    (List.replicate as ([] : List Bool)) a0m (by
    intro bs hbs
    simp only [List.mem_cons, List.not_mem_nil, or_false] at hbs
    rcases hbs with rfl | rfl | rfl | rfl | rfl | rfl | rfl | rfl |
      rfl | rfl | rfl <;> simp [h])
  rw [hd, ha]
  refine ⟨by rw [hds]; simp, ?_, by rw [has]; simp, ?_⟩
  · intro x hx
    exact hdm x hx
  · intro x hx
    exact ham x hx

end Sram

namespace Sram

/-- Claim C9: after `create_test_cycles` with period `p`, the cycle
timestamps satisfy `cycle_times[i] = i * p`; the timestamp list, the
three control-value lists, and every per-bit data and address stream
have one entry per cycle (11 entries); and each of the four dynamic
power measurement windows emitted by `write_delay_measures` spans
exactly one period. -/
theorem create_test_cycles_timing_invariants (ws as : Nat)
    (addr : List Bool) (p : ℚ) (h : addr.length = as) :
    (create_test_cycles ws as addr p).st.cycle_times.length = 11 ∧
    (create_test_cycles ws as addr p).st.csb_values.length = 11 ∧
    (create_test_cycles ws as addr p).st.web_values.length = 11 ∧
    (create_test_cycles ws as addr p).st.oeb_values.length = 11 ∧
    (create_test_cycles ws as addr p).st.data_values.length = ws ∧
    (create_test_cycles ws as addr p).st.addr_values.length = as ∧
    (∀ x ∈ (create_test_cycles ws as addr p).st.data_values,
      x.length = 11) ∧
    (∀ x ∈ (create_test_cycles ws as addr p).st.addr_values,
      x.length = 11) ∧
    (∀ i, i < 11 →
      (create_test_cycles ws as addr p).st.cycle_times.getD i 0 =
        (i : ℚ) * p) ∧
    (∀ w ∈ delay_power_windows (create_test_cycles ws as addr p),
      w.2 - w.1 = p) := by
  obtain ⟨hcsb, hweb, hoeb⟩ := create_test_cycles_controls ws as addr p
  obtain ⟨hi0, hi1, hi2, hi3, hi4⟩ := create_test_cycles_indices ws as addr p
  obtain ⟨hds, hdm, has, ham⟩ := create_test_cycles_streams ws as addr p h
  have htimes := create_test_cycles_times ws as addr p
  refine ⟨by rw [htimes]; rfl, by rw [hcsb]; rfl, by rw [hweb]; rfl,
    by rw [hoeb]; rfl, hds, has, hdm, ham, ?_, ?_⟩
  · intro i hi
    rw [htimes]
    interval_cases i <;> norm_num [List.getD]
  · intro w hw
    simp only [delay_power_windows, hi0, hi1, hi3, hi4, htimes,
      List.mem_cons, List.not_mem_nil, or_false] at hw
    rcases hw with rfl | rfl | rfl | rfl <;> norm_num [List.getD] <;> ring

/-- Witness for C9 at a concrete probe point. -/
theorem create_test_cycles_timing_invariants_witness :
    ([true, true] : List Bool).length = 2 ∧
    (create_test_cycles 1 2 [true, true] (1:ℚ)).st.cycle_times.length =
      11 :=
  ⟨rfl, (create_test_cycles_timing_invariants 1 2 [true, true] 1 rfl).1⟩

/-- Claim C8: the power-only (leakage) stimulus holds every data and
address bit constant at 0, holds chip-select, write-enable and
output-enable constant at the supply voltage, holds the clock constant
at 0, measures `leakage_power` over exactly the second simulated period
`[period, 2 * period]`, and runs the simulation for exactly
`2 * period`. -/
theorem write_power_stimulus_spec (ws as : Nat) (vdd period : ℚ) :
    (∀ v ∈ (write_power_stimulus ws as vdd period).din, v = 0) ∧
    (∀ v ∈ (write_power_stimulus ws as vdd period).addr, v = 0) ∧
    (write_power_stimulus ws as vdd period).din.length = ws ∧
    (write_power_stimulus ws as vdd period).addr.length = as ∧
    (write_power_stimulus ws as vdd period).csb = vdd ∧
    (write_power_stimulus ws as vdd period).web = vdd ∧
    (write_power_stimulus ws as vdd period).oeb = vdd ∧
    (write_power_stimulus ws as vdd period).clk = 0 ∧
    (write_power_stimulus ws as vdd period).meas_t_initial = period ∧
    (write_power_stimulus ws as vdd period).meas_t_final = 2 * period ∧
    (write_power_stimulus ws as vdd period).sim_end = 2 * period := by
  refine ⟨?_, ?_, by simp [write_power_stimulus],
    by simp [write_power_stimulus], rfl, rfl, rfl, rfl, rfl, rfl, rfl⟩
  · intro v hv
    exact List.eq_of_mem_replicate hv
  · intro v hv
    exact List.eq_of_mem_replicate hv

/-- Claim C10: the analytical fallback returns `min_period = 0`, equal
`delay_lh`/`delay_hl` lists and equal `slew_lh`/`slew_hl` lists with one
entry per (slew, load) pair, and a single scalar dynamic power —
computed from the last load of the sweep only — reported identically
for all four of read0/read1/write0/write1 power. -/
theorem analytical_delay_spec (adelay : ℚ → ℚ → BankDelay)
    (apower : ℚ → PowerModel) (slews loads : List ℚ) (s0 last_load : ℚ)
    (h1 : slews.getLast? = some s0) (h2 : loads.getLast? = some last_load) :
    ∃ d, analytical_delay adelay apower slews loads = some d ∧
      d.min_period = 0 ∧
      d.delay_lh = d.delay_hl ∧
      d.slew_lh = d.slew_hl ∧
      d.delay_lh.length = slews.length * loads.length ∧
      d.read0_power = (apower last_load).dynamic / 1000000 ∧
      d.read1_power = (apower last_load).dynamic / 1000000 ∧
      d.write0_power = (apower last_load).dynamic / 1000000 ∧
      d.write1_power = (apower last_load).dynamic / 1000000 ∧
      d.leakage_power = (apower last_load).leakage / 1000000 := by
  have heq : analytical_delay adelay apower slews loads = some
      { min_period := 0
        delay_lh := (sweep_pairs slews loads).map
          (fun q => (adelay q.1 q.2).delay / 1000)
        delay_hl := (sweep_pairs slews loads).map
          (fun q => (adelay q.1 q.2).delay / 1000)
        slew_lh := (sweep_pairs slews loads).map
          (fun q => (adelay q.1 q.2).slew / 1000)
        slew_hl := (sweep_pairs slews loads).map
          (fun q => (adelay q.1 q.2).slew / 1000)
        read0_power := (apower last_load).dynamic / 1000000
        read1_power := (apower last_load).dynamic / 1000000
        write0_power := (apower last_load).dynamic / 1000000
        write1_power := (apower last_load).dynamic / 1000000
        leakage_power := (apower last_load).leakage / 1000000 } := by
    unfold analytical_delay
    rw [h1, h2]
  refine ⟨_, heq, rfl, rfl, rfl, ?_, rfl, rfl, rfl, rfl, rfl⟩
  show ((slews.flatMap (fun s => loads.map (fun l => (s, l)))).map
    (fun q => (adelay q.1 q.2).delay / 1000)).length =
    slews.length * loads.length
  rw [List.length_map, List.length_flatMap]
  rw [show (slews.map (List.length ∘ fun s => loads.map (fun l => (s, l))))
      = List.replicate slews.length loads.length by
    refine List.eq_replicate_iff.mpr ⟨by simp, ?_⟩
    intro b hb
    simp only [List.mem_map, Function.comp] at hb
    obtain ⟨a, _, rfl⟩ := hb
    simp]
  rw [List.sum_replicate, smul_eq_mul]

end Sram

namespace Sram

/-- Witness for C10 with concrete analytical models and sweep
`slews = [1, 2]`, `loads = [3]`. -/
theorem analytical_delay_spec_witness :
    ∃ d, analytical_delay ad_c10 ap_c10 [1, 2] [3] = some d ∧
      d.min_period = 0 ∧
      d.delay_lh = d.delay_hl ∧
      d.slew_lh = d.slew_hl ∧
      d.delay_lh.length = ([(1:ℚ), 2]).length * ([(3:ℚ)]).length ∧
      d.read0_power = (ap_c10 3).dynamic / 1000000 ∧
      d.read1_power = (ap_c10 3).dynamic / 1000000 ∧
      d.write0_power = (ap_c10 3).dynamic / 1000000 ∧
      d.write1_power = (ap_c10 3).dynamic / 1000000 ∧
      d.leakage_power = (ap_c10 3).leakage / 1000000 :=
  analytical_delay_spec ad_c10 ap_c10 [1, 2] [3] 2 3 rfl rfl

end Sram
